import Mathlib

/-!
Verification development for the RESP codec of `gallir/radix.improved`.

Bytes are modelled as `Nat` (each < 256 in practice; the code never relies on
wrap-around, it only moves bytes and compares them).  Go byte slices become
`List Nat`.  Go's `(value, error)` returns become `Except RespErr _` when the
caller aborts on the error, and `Option RespErr × _` when the code keeps both
results (as `Pool.bufferedPrefix` callers do with the consumed buffer).

`bytes.Buffer` as used by the decoders is write-once/read-forward: each
`UnmarshalRESP` starts with `p.get()` (which `Reset`s the buffer) and then
writes exactly the input slice, so the buffer's unread contents are a pure
function of the input list and every read primitive is `take`/`drop`.
-/

deriving instance DecidableEq for Except

/-- Errors of the codec, one constructor per distinct error source in the Go
code.  `eof` is `io.EOF`; `pfxMismatch` is the `fmt.Errorf("expected prefix
%q, got %q", …)` of `Pool.bufferedPrefix` (it carries the same two byte
strings the Go error formats); `parseIntSyntax`/`parseIntRange` are
`strconv.ParseInt`'s `ErrSyntax`/`ErrRange` (carrying the offending text);
`bulkLenMismatch`/`bulkDelimMismatch` are the two `fmt.Errorf`s of
`BulkString.UnmarshalRESP`; `unsupportedType` is `Any.MarshalRESP`'s
"could not marshal value of type %T"; `cannotEncode` is `encoder2.write`'s
"cannot encode %T as a redis type"; `sinkErr` stands for an error returned by
the underlying `io.Writer`; `panicErr` marks a Go runtime panic (a panic is
not an error return, but the decoders below only reach it on inputs no claim
touches). -/
inductive RespErr where
  | eof
  | pfxMismatch (expected actual : List Nat)
  | parseIntSyntax (s : List Nat)
  | parseIntRange (s : List Nat)
  | bulkLenMismatch (expected : Int) (got : Nat)
  | bulkDelimMismatch (got : List Nat)
  | unsupportedType (tyName : String)
  | cannotEncode (tyName : String)
  | sinkErr
  | panicErr (msg : String)
deriving DecidableEq, Repr

/-! ### Wire-grammar constants (resp.go lines 20-34, unnamed/part_000 lines 8-22) -/

/-- `delim = []byte{'\r', '\n'}` -/
def delim : List Nat := [13, 10]

/-- `simpleStrPrefix = []byte{'+'}` (renamed, `Pfx` for prefix). -/
def simpleStrPfx : List Nat := [43]

/-- `errPrefix = []byte{'-'}` -/
def errPfx : List Nat := [45]

/-- `intPrefix = []byte{':'}` -/
def intPfx : List Nat := [58]

/-- `bulkStrPrefix = []byte{'$'}` -/
def bulkStrPfx : List Nat := [36]

/-- `arrayPrefix = []byte{'*'}` -/
def arrayPfx : List Nat := [42]

/-- `nilBulkString = []byte("$-1\r\n")` -/
def nilBulkString : List Nat := [36, 45, 49, 13, 10]

/-- `nilArray = []byte("*-1\r\n")` -/
def nilArray : List Nat := [42, 45, 49, 13, 10]

/-- `bools = [][]byte{{'0'}, {'1'}}` -/
def bools : List (List Nat) := [[48], [49]]

/-! ### Decimal formatting (`strconv.AppendInt`) and parsing (`strconv.ParseInt`) -/

/-- ASCII decimal digits of a natural number, most significant first.  The
first argument is structural fuel (`n + 1` always suffices since `n / 10 < n`
for `n ≥ 10`); the `[]` base arm is unreachable at the fuel `natDigits`
supplies. -/
def natDigitsAux : Nat → Nat → List Nat
  | 0, _ => []
  | fuel + 1, n =>
    if n < 10 then [48 + n] else natDigitsAux fuel (n / 10) ++ [48 + n % 10]

/-- ASCII decimal digits of `n`, most significant first. -/
def natDigits (n : Nat) : List Nat := natDigitsAux (n + 1) n

/-- `strconv.AppendInt(nil, i, 10)`: minus sign for negatives, then digits. -/
def appendInt (i : Int) : List Nat :=
  if i < 0 then 45 :: natDigits (-i).toNat else natDigits i.toNat

/-- Is `c` the ASCII code of a decimal digit? -/
def isDigitB (c : Nat) : Bool := decide (48 ≤ c ∧ c ≤ 57)

/-- Value of a digit string (callers ensure every element is a digit). -/
def digitsToNat (l : List Nat) : Nat := l.foldl (fun acc c => acc * 10 + (c - 48)) 0

/-- `strconv.ParseInt(string s, 10, 64)`.  Go: empty input is a syntax error;
an optional leading `+`/`-`; the rest must be one or more decimal digits;
values outside the signed 64-bit range are a range error. -/
def parseInt (s : List Nat) : Except RespErr Int :=
  match s with
  | [] => .error (.parseIntSyntax s)
  | c :: rest =>
    let neg : Bool := c = 45
    let ds : List Nat := if c = 43 ∨ c = 45 then rest else c :: rest
    if ds = [] then .error (.parseIntSyntax s)
    else if ds.all isDigitB then
      let v := digitsToNat ds
      if neg then
        if v ≤ 2 ^ 63 then .ok (-(v : Int)) else .error (.parseIntRange s)
      else
        if v < 2 ^ 63 then .ok (v : Int) else .error (.parseIntRange s)
    else .error (.parseIntSyntax s)

/-! ### Pool read primitives (resp.go lines 116-157)

Each primitive takes the unread buffer contents and returns its result
together with the buffer contents it leaves behind. -/

/-- `bytes.IndexByte`: index of the first occurrence of `c`. -/
def indexByte (c : Nat) : List Nat → Option Nat
  | [] => none
  | a :: rest => if a = c then some 0 else (indexByte c rest).map (· + 1)

/-- `Pool.readSlice(delim)`: everything up to and including the first
occurrence of `c` (with no error), or the whole buffer and `io.EOF` if `c`
does not occur.  Mirrors `i := IndexByte(b, delim); if i < 0 { i = len(b);
err = io.EOF }; return p.buf.Next(i+1), err`. -/
def readSlice (c : Nat) (b : List Nat) : List Nat × List Nat × Option RespErr :=
  match indexByte c b with
  | some i => (b.take (i + 1), b.drop (i + 1), none)
  | none => (b, [], some .eof)

/-- `bytes.Buffer.Next(n)`: the next `min n available` bytes and the rest. -/
def bufNext (n : Nat) (b : List Nat) : List Nat × List Nat := (b.take n, b.drop n)

/-- `Pool.bufferedPrefix(prefix)`: consume `len(prefix)` bytes (fewer if the
buffer is shorter), error if they differ from `prefix`.  The consumed buffer
is returned in either case, as in the Go code (`Next` runs before the
comparison). -/
def bufferedPfx (pfx b : List Nat) : Option RespErr × List Nat :=
  let t := b.take pfx.length
  (if t = pfx then none else some (.pfxMismatch pfx t), b.drop pfx.length)

/-- `Pool.bufferedBytesDelim()`: `readSlice('\r')`, then `ReadByte` for the
trailing byte.  Note the Go code reads one byte after the CR but never checks
that it equals LF; it only fails if no byte is there (`io.EOF`). -/
def bufferedBytesDelim (b : List Nat) : Except RespErr (List Nat × List Nat) :=
  match readSlice 13 b with
  | (_, _, some e) => .error e
  | (taken, rest, none) =>
    match rest with
    | [] => .error .eof
    | _ :: rest2 => .ok (taken.dropLast, rest2)

/-- `Pool.bufferedIntDelim()`: a delimited line parsed as a base-10 int64. -/
def bufferedIntDelim (b : List Nat) : Except RespErr (Int × List Nat) :=
  match bufferedBytesDelim b with
  | .error e => .error e
  | .ok (line, rest) =>
    match parseInt line with
    | .ok n => .ok (n, rest)
    | .error e => .error e

/-! ### Scalar codecs (resp.go lines 161-336)

`MarshalRESP` of every scalar type always returns a nil error, so the marshal
functions return plain byte lists.  `UnmarshalRESP` is given the input slice
(the pool buffer holds exactly that slice after `get()`+`Write`); each decode
returns the decoded value together with the bytes the decode left unread in
the buffer. -/

/-- `SimpleString.MarshalRESP`: `+`, S, CRLF. -/
def simpleStringMarshal (s : List Nat) : List Nat := simpleStrPfx ++ s ++ delim

/-- `SimpleString.UnmarshalRESP`. -/
def simpleStringUnmarshal (b : List Nat) : Except RespErr (List Nat × List Nat) :=
  match bufferedPfx simpleStrPfx b with
  | (some e, _) => .error e
  | (none, r1) => bufferedBytesDelim r1

/-- `Error.MarshalRESP`: `-`, message text, CRLF (`e.E == nil` writes no
message; we model the message of `Error{E: errors.New(string msg)}`). -/
def errorMarshal (msg : List Nat) : List Nat := errPfx ++ msg ++ delim

/-- `Error.UnmarshalRESP`: the decoded value is `errors.New(string(b))`,
modelled by its message bytes. -/
def errorUnmarshal (b : List Nat) : Except RespErr (List Nat × List Nat) :=
  match bufferedPfx errPfx b with
  | (some e, _) => .error e
  | (none, r1) => bufferedBytesDelim r1

/-- `Int.MarshalRESP`: `:`, decimal digits, CRLF. -/
def intMarshal (i : Int) : List Nat := intPfx ++ appendInt i ++ delim

/-- `Int.UnmarshalRESP`. -/
def intUnmarshal (b : List Nat) : Except RespErr (Int × List Nat) :=
  match bufferedPfx intPfx b with
  | (some e, _) => .error e
  | (none, r1) => bufferedIntDelim r1

/-- `ArrayHeader.MarshalRESP`: `*`, decimal count, CRLF. -/
def arrayHeaderMarshal (n : Int) : List Nat := arrayPfx ++ appendInt n ++ delim

/-- `ArrayHeader.UnmarshalRESP`. -/
def arrayHeaderUnmarshal (b : List Nat) : Except RespErr (Int × List Nat) :=
  match bufferedPfx arrayPfx b with
  | (some e, _) => .error e
  | (none, r1) => bufferedIntDelim r1

/-- `BulkString.B`: `none` is Go's nil slice, `some l` a non-nil slice. -/
abbrev BulkB := Option (List Nat)

/-- `BulkString.MarshalRESP`: nil `B` returns the precomputed `$-1\r\n`
constant; otherwise `$`, decimal length, CRLF, the raw payload, CRLF. -/
def bulkStringMarshal : BulkB → List Nat
  | none => nilBulkString
  | some b => bulkStrPfx ++ appendInt b.length ++ delim ++ b ++ delim

/-- `BulkString.UnmarshalRESP`, parametrised by the destination's current `B`
field.  Declared length `-1` sets `B = nil` and reads nothing further.
Otherwise: a nil destination becomes `make([]byte, 0, nn)`; the payload is
`append(b.B[0:], p.buf.Next(nn)...)` — appended after the destination's
existing bytes, since `b.B[0:]` is the full existing slice — and the decode
fails unless the resulting length equals the declared one and the next two
bytes are CRLF.  A declared length below `-1` panics in Go (`make` with
negative capacity, or `Next` with negative argument). -/
def bulkStringUnmarshal (destB : BulkB) (bb : List Nat) :
    Except RespErr (BulkB × List Nat) :=
  match bufferedPfx bulkStrPfx bb with
  | (some e, _) => .error e
  | (none, r1) =>
    match bufferedIntDelim r1 with
    | .error e => .error e
    | .ok (n, r2) =>
      if n = -1 then .ok (none, r2)
      else if n < 0 then .error (.panicErr "makeslice: cap out of range")
      else
        let cur : List Nat := match destB with
          | none => []
          | some d => d
        let nn := n.toNat
        let (taken, r3) := bufNext nn r2
        let newB := cur ++ taken
        if newB.length ≠ nn then .error (.bulkLenMismatch n newB.length)
        else
          let (d2, r4) := bufNext 2 r3
          if d2 = delim then .ok (some newB, r4)
          else .error (.bulkDelimMismatch d2)

/-! ### Pool state for the nil-marshal claim (resp.go lines 96-112, 263-274)

The functional marshals above erase the pool; this variant keeps the pool's
two fields to show the nil case returns before `p.get()` is even called. -/

/-- `Pool`: the output buffer's contents and the scratch slice's contents. -/
structure PoolSt where
  buf : List Nat
  scratch : List Nat
deriving DecidableEq, Repr

/-- `BulkString.MarshalRESP` with the pool effects explicit.  `B == nil`
returns the `nilBulkString` constant before touching the pool.  Otherwise
`get()` resets both fields and the encoding is written to `buf`; the digits
of `strconv.AppendInt(p.scratch, …)` land in scratch's storage but
`p.scratch` itself is never reassigned, so it stays empty after the reset. -/
def bulkStringMarshalSt (b : BulkB) (p : PoolSt) : List Nat × PoolSt :=
  match b with
  | none => (nilBulkString, p)
  | some bs =>
    let out := bulkStrPfx ++ appendInt bs.length ++ delim ++ bs ++ delim
    (out, { buf := out, scratch := [] })

/-! ### The Generic Value Marshaler `Any` (resp.go lines 353-488)

`GoVal` is the universe of Go values the claims exercise, covering the
type-switch cases of `Any.MarshalRESP` in source order plus the reflection
cases (pointer, slice).  Omitted source cases (floats, maps, custom
marshalers) are not needed by any claim and no `GoVal` constructor maps to
them, so the dispatch order of the remaining cases is preserved.

`reflectValue` is a `reflect.Value` boxed in an `interface{}`.  The pointer
case of the source executes `Any{Pool: p, I: reflect.Indirect(vv)}.
MarshalRESP()` — note `reflect.Indirect(vv)` is itself a `reflect.Value` and
is stored in `I` without calling `.Interface()`.  A boxed `reflect.Value`
matches none of the type-switch cases (it implements none of `error`,
`Marshaler`, `encoding.TextMarshaler`, `encoding.BinaryMarshaler`), and
`reflect.ValueOf` of it has Kind `Struct`, so the nested call always lands in
the default branch: `fmt.Errorf("could not marshal value of type %T")` with
`%T = reflect.Value`.  The boxed value is never inspected, so the
constructor carries no payload, and the pointer arm inlines the one
re-dispatch step (the nested call returns the same error for every pointer,
nil or not). -/
inductive GoVal where
  | bytes (b : List Nat)
  | str (s : List Nat)
  | boolV (b : Bool)
  | nilV
  | intV (i : Int)
  | errV (msg : List Nat)
  | ptr (v : Option GoVal)
  | reflectValue
  | slice (elems : Option (List GoVal))
deriving Repr

mutual
/-- `Any.MarshalRESP`.  Strings go through the scratch buffer
(`bulkStrFromScratch`) but produce the same bytes as a direct `BulkString`
marshal of their content.  The slice case: a nil slice writes `nilArray`;
otherwise the array header is written first and each element is marshalled by
a recursive `Any` (the accumulator mechanics are modelled separately by
`Arena` below; this function captures the bytes and the error result). -/
def anyMarshal : GoVal → Except RespErr (List Nat)
  | .bytes b => .ok (bulkStringMarshal (some b))
  | .str s => .ok (bulkStringMarshal (some s))
  | .boolV bv => .ok (bulkStringMarshal (some (if bv then [49] else [48])))
  | .nilV => .ok (bulkStringMarshal none)
  | .intV i => .ok (intMarshal i)
  | .errV m => .ok (errorMarshal m)
  | .ptr _ => .error (.unsupportedType "reflect.Value")
  | .reflectValue => .error (.unsupportedType "reflect.Value")
  | .slice none => .ok nilArray
  | .slice (some es) =>
    match anyGo es none (arrayHeaderMarshal (es.length : Int)) with
    | (some e, _) => .error e
    | (none, acc) => .ok acc

/-- The element loop of the slice case (`arrVal` applied in order).  Faithful
to the source's error handling: `ib, err = (Any{…}).MarshalRESP()` overwrites
`err` on every iteration, so a failing element's error is cleared by a later
succeeding one; a successful element's bytes are appended to the
accumulator, a failing element appends nothing. -/
def anyGo : List GoVal → Option RespErr → List Nat → Option RespErr × List Nat
  | [], er, acc => (er, acc)
  | e :: rest, _, acc =>
    match anyMarshal e with
    | .ok ib => anyGo rest none (acc ++ ib)
    | .error e2 => anyGo rest (some e2) acc
end

/-! ### The accumulator/tail-buffer protocol of `Any.MarshalRESP`
(resp.go lines 428-451, 483-488)

`ogBuf := p.buf` keeps the accumulator; for each element `arrVal` narrows the
pool's buffer to the unused tail capacity of the accumulator's backing array
(`bytes.NewBuffer(ogBuf.Bytes()[ogBuf.Len():])`), runs the sub-encode there,
and appends the returned bytes onto the accumulator with `ogBuf.Write(ib)`.

`Arena` models the accumulator's backing array explicitly: `arr` is the full
array contents (its length is the capacity) and `len` the number of
accumulated bytes (`ogBuf.Len()`; `off` is always 0, the accumulator is never
read from).  Bytes of `arr` past `len` are scratch space whose exact value is
unobservable; `tailWrite`'s no-grow branch records the sub-encode's bytes
there, its grow branch leaves `arr` unchanged (the sub-buffer reallocated
elsewhere, the shared array's tail holds garbage either way). -/
structure Arena where
  arr : List Nat
  len : Nat
deriving DecidableEq, Repr

/-- The accumulated bytes: `ogBuf.Bytes()`. -/
def accBytes (a : Arena) : List Nat := a.arr.take a.len

/-- `ogBuf.Write(b)`: append at position `len`.  If the array has room the
bytes land in place (when `b` is the sub-encode's output sitting in the tail,
this copies them onto themselves); otherwise `bytes.Buffer` grows by
allocating a fresh array and copying the `len` accumulated bytes before the
new ones. -/
def ogBufWrite (a : Arena) (b : List Nat) : Arena :=
  if a.len + b.length ≤ a.arr.length then
    ⟨a.arr.take a.len ++ b ++ a.arr.drop (a.len + b.length), a.len + b.length⟩
  else
    ⟨a.arr.take a.len ++ b, a.len + b.length⟩

/-- Effect on the shared array of a sub-encode that produced `eb` inside the
tail view `ogBuf.Bytes()[ogBuf.Len():]`: if the tail capacity holds `eb` the
bytes are written there (`len` unchanged — the accumulator learns of them
only through the subsequent `ogBufWrite`); if not, the sub-buffer grew into a
fresh allocation and the shared array is untouched. -/
def tailWrite (a : Arena) (eb : List Nat) : Arena :=
  if a.len + eb.length ≤ a.arr.length then
    ⟨a.arr.take a.len ++ eb ++ a.arr.drop (a.len + eb.length), a.len⟩
  else a

/-- One `arrVal(v)` step: run the sub-encode in the tail view, then append
its bytes to the accumulator; a failing sub-encode appends nothing. -/
def arrValStep (a : Arena) (e : GoVal) : Arena :=
  match anyMarshal e with
  | .ok eb => ogBufWrite (tailWrite a eb) eb
  | .error _ => a

/-- The slice case of `Any.MarshalRESP` over the explicit arena: `p.get()`
has reset the buffer (`len = 0`, capacity retained), `arrHeader` writes the
header through the pool's buffer (sharing the array at offset 0, exactly the
`tailWrite`/`ogBufWrite` pattern with `len = 0`), then `arrVal` runs per
element in order. -/
def sliceMarshalArena (es : List GoVal) (a0 : Arena) : Arena :=
  let hb := arrayHeaderMarshal (es.length : Int)
  let a1 := ogBufWrite (tailWrite a0 hb) hb
  es.foldl arrValStep a1

/-! ### The Streaming Encoder `encoder2` (encoder2.go)

The underlying `io.Writer` is modelled by `Sink`: it either always accepts
writes (`failAfter = none`) or rejects any write that would take its total
past a threshold — a family of writers sufficient to exercise both success
and failure of `bufio.Writer.Flush`.  `BufioWriter` models
`bufio.NewWriter(w)` (4096-byte buffer, sticky error): writes buffer until
full, a full buffer is flushed to the sink first, a sink error is stored and
every later operation returns it. -/

/-- An `io.Writer` implementation: each `Write` call either appends all its
bytes or fails whole, failing exactly when the running total would exceed
`failAfter`. -/
structure Sink where
  written : List Nat
  failAfter : Option Nat
deriving DecidableEq, Repr

/-- One `Write` call on the sink. -/
def sinkWrite (s : Sink) (b : List Nat) : Sink × Option RespErr :=
  match s.failAfter with
  | some n =>
    if s.written.length + b.length > n then (s, some .sinkErr)
    else ({ s with written := s.written ++ b }, none)
  | none => ({ s with written := s.written ++ b }, none)

/-- `bufio.NewWriter` default buffer size. -/
def bufioSize : Nat := 4096

/-- `bufio.Writer`: the sink, the internal buffer, and the sticky error. -/
structure BufioWriter where
  sink : Sink
  buf : List Nat
  err : Option RespErr
deriving DecidableEq, Repr

/-- `bufio.Writer.Flush`: returns the sticky error if set; otherwise pushes
the buffered bytes (if any) to the sink, recording a sink failure as the
sticky error. -/
def bwFlush (w : BufioWriter) : BufioWriter × Option RespErr :=
  match w.err with
  | some e => (w, some e)
  | none =>
    if w.buf = [] then (w, none)
    else
      match sinkWrite w.sink w.buf with
      | (s2, none) => ({ w with sink := s2, buf := [] }, none)
      | (s2, some e) => ({ w with sink := s2, err := some e }, some e)

/-- `bufio.Writer.Write`: no-op under a sticky error; buffers while there is
room; otherwise flushes the current buffer first, then buffers (or, for a
payload larger than the whole buffer, writes it straight to the sink). -/
def bwWrite (w : BufioWriter) (b : List Nat) : BufioWriter × Option RespErr :=
  match w.err with
  | some e => (w, some e)
  | none =>
    if w.buf.length + b.length ≤ bufioSize then ({ w with buf := w.buf ++ b }, none)
    else
      match bwFlush w with
      | (w2, some e) => (w2, some e)
      | (w2, none) =>
        if b.length ≤ bufioSize then ({ w2 with buf := b }, none)
        else
          match sinkWrite w2.sink b with
          | (s2, none) => ({ w2 with sink := s2 }, none)
          | (s2, some e) => ({ w2 with sink := s2, err := some e }, some e)

/-- `encoder2`: the buffered writer and `bodyBuf` (the staging buffer that
`write` fills and `writeLenReader` drains through `io.Copy`).  `scratch` only
ever holds the digits `strconv.AppendInt(e.scratch[:0], …)` produces and its
length stays 0, so it is not tracked. -/
structure Enc2State where
  w : BufioWriter
  bodyBuf : List Nat
deriving DecidableEq, Repr

/-- Result of `encoder2.write`/`Encode`: either a Go panic (reached only by
`vv.Elem().Interface()` on a nil pointer) or a normal return carrying the
updated state and the error value. -/
inductive Enc2Res where
  | panicked
  | ret (st : Enc2State) (err : Option RespErr)
deriving DecidableEq, Repr

/-- `encoder2.writeBytes(prevErr, b)`: skip the write under a previous
error, else write to the buffered writer. -/
def writeBytesW (w : BufioWriter) (prevErr : Option RespErr) (b : List Nat) :
    BufioWriter × Option RespErr :=
  match prevErr with
  | some e => (w, some e)
  | none => bwWrite w b

/-- `encoder2.writeLenReader(e.bodyBuf)`: bulk-string header (`$`, decimal
length of the staged body, CRLF) through the `writeBytes` chain; if the
header failed, return that error with the body still staged; otherwise
`io.Copy` drains the body into the writer (a `bytes.Buffer` read never
fails, so the copy's error is the write error) and the trailing CRLF goes
through `writeBytes` again. -/
def writeLenReader (st : Enc2State) : Enc2State × Option RespErr :=
  let p1 := writeBytesW st.w none bulkStrPfx
  let p2 := writeBytesW p1.1 p1.2 (appendInt (st.bodyBuf.length : Int))
  let p3 := writeBytesW p2.1 p2.2 delim
  match p3.2 with
  | some e => ({ st with w := p3.1 }, some e)
  | none =>
    let p4 := bwWrite p3.1 st.bodyBuf
    let p5 := writeBytesW p4.1 p4.2 delim
    ({ w := p5.1, bodyBuf := [] }, p5.2)

/-- `encoder2.writeInt`. -/
def writeInt (w : BufioWriter) (i : Int) : BufioWriter × Option RespErr :=
  let p1 := writeBytesW w none intPfx
  let p2 := writeBytesW p1.1 p1.2 (appendInt i)
  writeBytesW p2.1 p2.2 delim

/-- `encoder2.writeAppErr`.  Modelled from the spec: `AppErr` is defined
outside the sources at hand; per the spec an error value "wraps the message
as `-<message>\r\n` exactly", so `AppErr{Err: vt}.Error()` is the wrapped
error's message bytes. -/
def writeAppErr (w : BufioWriter) (msg : List Nat) : BufioWriter × Option RespErr :=
  let p1 := writeBytesW w none errPfx
  let p2 := writeBytesW p1.1 p1.2 msg
  writeBytesW p2.1 p2.2 delim

/-- `encoder2.writeBulkNil`: `writeBytes(nil, nilBulkStr)`. -/
def writeBulkNil (w : BufioWriter) : BufioWriter × Option RespErr :=
  bwWrite w nilBulkString

/-- `encoder2.write` over the `GoVal` universe, following the source's
type-switch order (no `GoVal` constructor maps to the earlier `LenReader`
case or to floats/Text/Binary/`Marshaler`).  `[]byte`/`string`/`bool` stage
their payload in `bodyBuf` and call `writeLenReader`; a pointer is
dereferenced with `vv.Elem().Interface()` and re-dispatched — which panics
for a nil pointer (`Interface` on the zero `Value`); slices and boxed
`reflect.Value`s reach the trailing `fmt.Errorf` (the `%T` type name is
abstracted for slices, whose Go element type `GoVal` erases). -/
def enc2write : GoVal → Enc2State → Enc2Res
  | .bytes b, st =>
    let st2 := { st with bodyBuf := st.bodyBuf ++ b }
    let p := writeLenReader st2
    .ret p.1 p.2
  | .str s, st =>
    let st2 := { st with bodyBuf := st.bodyBuf ++ s }
    let p := writeLenReader st2
    .ret p.1 p.2
  | .boolV bv, st =>
    let st2 := { st with bodyBuf := st.bodyBuf ++ (if bv then [49] else [48]) }
    let p := writeLenReader st2
    .ret p.1 p.2
  | .nilV, st =>
    let p := writeBulkNil st.w
    .ret { st with w := p.1 } p.2
  | .intV i, st =>
    let p := writeInt st.w i
    .ret { st with w := p.1 } p.2
  | .errV m, st =>
    let p := writeAppErr st.w m
    .ret { st with w := p.1 } p.2
  | .ptr (some g), st => enc2write g st
  | .ptr none, _ => .panicked
  | .reflectValue, st => .ret st (some (.cannotEncode "reflect.Value"))
  | .slice _, st => .ret st (some (.cannotEncode "slice"))

/-- `encoder2.Encode`: run `write`, then always `Flush`; the flush error is
used only when `write` returned none (`if ferr != nil && err == nil`). -/
def encode2 (v : GoVal) (st : Enc2State) : Enc2Res :=
  match enc2write v st with
  | .panicked => .panicked
  | .ret st1 err =>
    let p := bwFlush st1.w
    .ret { st1 with w := p.1 }
      (match err with
       | some e => some e
       | none => p.2)

/-- A fresh `encoder2` as produced by `NewEncoder2` over a sink that never
fails: empty bufio buffer, no sticky error, empty staging buffer. -/
def enc2Init : Enc2State :=
  { w := { sink := { written := [], failAfter := none }, buf := [], err := none },
    bodyBuf := [] }

/-! ### Helper lemmas -/

theorem take_len_of_append (u v : List Nat) (n : Nat) (h : u.length = n) :
    (u ++ v).take n = u := by
  subst h; exact List.take_left u v

theorem take_len_add (u v : List Nat) (n m : Nat) (h : u.length = n) :
    (u ++ v).take (n + m) = u ++ v.take m := by
  subst h; exact List.take_append m

theorem indexByte_not_mem {c : Nat} {u : List Nat} (h : c ∉ u) : indexByte c u = none := by
  induction u with
  | nil => rfl
  | cons a rest ih =>
    have ha : ¬(a = c) := fun hh => h (by simp [hh])
    have hr : c ∉ rest := fun hm => h (by simp [hm])
    simp [indexByte, ha, ih hr]

theorem indexByte_append (u : List Nat) (c : Nat) (v : List Nat) (h : c ∉ u) :
    indexByte c (u ++ c :: v) = some u.length := by
  induction u with
  | nil => simp [indexByte]
  | cons a rest ih =>
    have ha : ¬(a = c) := fun hh => h (by simp [hh])
    have hr : c ∉ rest := fun hm => h (by simp [hm])
    simp [indexByte, ha, ih hr]

theorem readSlice_append (u : List Nat) (c : Nat) (v : List Nat) (h : c ∉ u) :
    readSlice c (u ++ c :: v) = (u ++ [c], v, none) := by
  simp only [readSlice, indexByte_append u c v h]
  rw [show u.length + 1 = u.length + 1 from rfl, take_len_add u (c :: v) u.length 1 rfl]
  rw [show (u ++ c :: v).drop (u.length + 1) = (c :: v).drop 1 from List.drop_append 1]
  simp

theorem bufferedBytesDelim_ok (u : List Nat) (c : Nat) (v : List Nat)
    (h : (13 : Nat) ∉ u) :
    bufferedBytesDelim (u ++ 13 :: c :: v) = .ok (u, v) := by
  simp only [bufferedBytesDelim, readSlice_append u 13 (c :: v) h]
  simp [List.dropLast_concat]

theorem bufferedBytesDelim_end (u : List Nat) (h : (13 : Nat) ∉ u) :
    bufferedBytesDelim (u ++ [13]) = .error .eof := by
  simp only [show u ++ [13] = u ++ 13 :: ([] : List Nat) from rfl,
    bufferedBytesDelim, readSlice_append u 13 [] h]

theorem bufferedBytesDelim_noCR (u : List Nat) (h : (13 : Nat) ∉ u) :
    bufferedBytesDelim u = .error .eof := by
  simp only [bufferedBytesDelim, readSlice, indexByte_not_mem h]

theorem natDigitsAux_digits (fuel : Nat) :
    ∀ n : Nat, ∀ c ∈ natDigitsAux fuel n, 48 ≤ c ∧ c ≤ 57 := by
  induction fuel with
  | zero => intro n c hc; simp [natDigitsAux] at hc
  | succ f ih =>
    intro n c hc
    simp only [natDigitsAux] at hc
    split at hc
    · next h => simp at hc; omega
    · next h =>
      rcases List.mem_append.mp hc with h1 | h2
      · exact ih _ c h1
      · simp at h2; omega

theorem natDigits_digits (n : Nat) : ∀ c ∈ natDigits n, 48 ≤ c ∧ c ≤ 57 :=
  natDigitsAux_digits (n + 1) n

theorem natDigits_no_CR (n : Nat) : (13 : Nat) ∉ natDigits n := by
  intro h
  have := natDigits_digits n 13 h
  omega

theorem natDigitsAux_ne_nil (fuel n : Nat) (h : 0 < fuel) : natDigitsAux fuel n ≠ [] := by
  cases fuel with
  | zero => omega
  | succ f =>
    simp only [natDigitsAux]
    split
    · simp
    · simp

theorem digitsToNat_append_digit (l : List Nat) (d : Nat) :
    digitsToNat (l ++ [d]) = 10 * digitsToNat l + (d - 48) := by
  simp [digitsToNat, List.foldl_append]
  ring

theorem digitsToNat_natDigitsAux (fuel : Nat) :
    ∀ n : Nat, n < fuel → digitsToNat (natDigitsAux fuel n) = n := by
  induction fuel with
  | zero => intro n h; omega
  | succ f ih =>
    intro n h
    simp only [natDigitsAux]
    split
    · next hlt => simp [digitsToNat]
    · next hge =>
      rw [digitsToNat_append_digit, ih (n / 10) (by omega)]
      omega

theorem digitsToNat_natDigits (n : Nat) : digitsToNat (natDigits n) = n :=
  digitsToNat_natDigitsAux (n + 1) n (Nat.lt_succ_self n)

theorem parseInt_natDigits (n : Nat) (h : n < 2 ^ 63) : parseInt (natDigits n) = .ok n := by
  obtain ⟨c, rest, hcr⟩ : ∃ c rest, natDigits n = c :: rest := by
    cases hd : natDigits n with
    | nil => exact absurd hd (natDigitsAux_ne_nil _ _ (Nat.succ_pos n))
    | cons c rest => exact ⟨c, rest, rfl⟩
  have hc : 48 ≤ c ∧ c ≤ 57 := natDigits_digits n c (by rw [hcr]; simp)
  have hall : (c :: rest).all isDigitB = true := by
    rw [← hcr]
    simp only [List.all_eq_true]
    intro x hx
    have := natDigits_digits n x hx
    simp [isDigitB]; omega
  have hval : digitsToNat (c :: rest) = n := by rw [← hcr, digitsToNat_natDigits]
  rw [hcr]
  simp only [parseInt]
  rw [if_neg (show ¬(c = 43 ∨ c = 45) by omega), if_neg (by simp : ¬(c :: rest = [])),
    if_pos hall, hval]
  rw [if_neg (show ¬(decide (c = 45) = true) by simp; omega)]
  rw [if_pos h]

theorem appendInt_ofNat (n : Nat) : appendInt (n : Int) = natDigits n := by
  simp [appendInt]

theorem bufferedIntDelim_digits (n : Nat) (u : List Nat) (h : n < 2 ^ 63) :
    bufferedIntDelim (natDigits n ++ 13 :: 10 :: u) = .ok ((n : Int), u) := by
  simp only [bufferedIntDelim, bufferedBytesDelim_ok (natDigits n) 10 u (natDigits_no_CR n),
    parseInt_natDigits n h]

theorem bufferedPfx_cons (c : Nat) (t : List Nat) : bufferedPfx [c] (c :: t) = (none, t) := by
  simp [bufferedPfx]

/-- What `BulkString.UnmarshalRESP` does to a well-formed non-nil encoding:
the payload is appended after the destination's existing bytes, so the decode
succeeds exactly when the destination was empty. -/
theorem bulkStringUnmarshal_marshal (destB : BulkB) (payload rest : List Nat)
    (hlen : payload.length < 2 ^ 63) :
    bulkStringUnmarshal destB (bulkStringMarshal (some payload) ++ rest) =
      (match destB with
       | none => .ok (some payload, rest)
       | some d =>
         if d.length = 0 then .ok (some (d ++ payload), rest)
         else .error (.bulkLenMismatch (payload.length : Int)
                        (d.length + payload.length))) := by
  have hshape : bulkStringMarshal (some payload) ++ rest =
      36 :: (natDigits payload.length ++ 13 :: 10 :: (payload ++ 13 :: 10 :: rest)) := by
    simp [bulkStringMarshal, bulkStrPfx, delim, appendInt_ofNat]
  rw [hshape]
  simp only [bulkStringUnmarshal, bulkStrPfx, bufferedPfx_cons,
    bufferedIntDelim_digits payload.length (payload ++ 13 :: 10 :: rest) hlen]
  rw [if_neg (by omega : ¬((payload.length : Int) = -1)),
    if_neg (by omega : ¬((payload.length : Int) < 0))]
  simp only [bufNext, Int.toNat_ofNat]
  rw [take_len_of_append payload (13 :: 10 :: rest) payload.length rfl,
    show (payload ++ 13 :: 10 :: rest).drop payload.length = 13 :: 10 :: rest from
      List.drop_left payload _]
  cases destB with
  | none =>
    simp [delim]
  | some d =>
    by_cases hd : d.length = 0
    · have : d = [] := List.length_eq_zero.mp hd
      subst this
      simp [delim]
    · rw [if_pos (by simp only [List.length_append]; omega :
        ((d ++ payload).length ≠ payload.length))]
      simp [hd]

theorem length_take_of_le {l : List Nat} {n : Nat} (h : n ≤ l.length) :
    (l.take n).length = n := by
  simp [List.length_take]; omega

theorem tailWrite_acc (a : Arena) (eb : List Nat) (h : a.len ≤ a.arr.length) :
    accBytes (tailWrite a eb) = accBytes a := by
  simp only [tailWrite]
  split
  · simp only [accBytes, List.append_assoc]
    exact take_len_of_append _ _ _ (length_take_of_le h)
  · rfl

theorem tailWrite_wf (a : Arena) (eb : List Nat) (h : a.len ≤ a.arr.length) :
    (tailWrite a eb).len ≤ (tailWrite a eb).arr.length := by
  simp only [tailWrite]
  split
  · next hle => simp [List.length_take, List.length_append, List.length_drop]; omega
  · exact h

theorem ogBufWrite_acc (a : Arena) (b : List Nat) (h : a.len ≤ a.arr.length) :
    accBytes (ogBufWrite a b) = accBytes a ++ b := by
  simp only [ogBufWrite]
  split
  · simp only [accBytes, List.append_assoc]
    rw [take_len_add _ _ _ _ (length_take_of_le h)]
    rw [take_len_of_append b _ b.length rfl]
  · simp only [accBytes]
    rw [take_len_add _ _ _ _ (length_take_of_le h)]
    rw [List.take_of_length_le (Nat.le_refl _)]

theorem ogBufWrite_wf (a : Arena) (b : List Nat) (h : a.len ≤ a.arr.length) :
    (ogBufWrite a b).len ≤ (ogBufWrite a b).arr.length := by
  simp only [ogBufWrite]
  split
  · next hle => simp [List.length_take, List.length_append, List.length_drop]; omega
  · simp [List.length_take, List.length_append]; omega

theorem arrValStep_acc (a : Arena) (e : GoVal) (eb : List Nat)
    (hok : anyMarshal e = .ok eb) (h : a.len ≤ a.arr.length) :
    accBytes (arrValStep a e) = accBytes a ++ eb := by
  simp only [arrValStep, hok]
  rw [ogBufWrite_acc _ _ (tailWrite_wf a eb h), tailWrite_acc a eb h]

theorem arrValStep_wf (a : Arena) (e : GoVal) (h : a.len ≤ a.arr.length) :
    (arrValStep a e).len ≤ (arrValStep a e).arr.length := by
  simp only [arrValStep]
  cases hok : anyMarshal e with
  | ok eb => exact ogBufWrite_wf _ _ (tailWrite_wf a eb h)
  | error e2 => exact h

/-- The arena run of the element loop accumulates exactly the bytes the
functional `anyGo` accumulates (a failing element contributes nothing in
either account). -/
theorem foldl_arrValStep_acc (es : List GoVal) :
    ∀ (a : Arena) (er : Option RespErr) (acc : List Nat),
      a.len ≤ a.arr.length → accBytes a = acc →
      accBytes (es.foldl arrValStep a) = (anyGo es er acc).2 := by
  induction es with
  | nil => intro a er acc hwf hacc; simpa [anyGo] using hacc
  | cons e rest ih =>
    intro a er acc hwf hacc
    simp only [List.foldl_cons, anyGo]
    cases hok : anyMarshal e with
    | ok ib =>
      exact ih (arrValStep a e) none (acc ++ ib) (arrValStep_wf a e hwf)
        (by rw [arrValStep_acc a e ib hok hwf, hacc])
    | error e2 =>
      have hstep : arrValStep a e = a := by simp [arrValStep, hok]
      exact ih (arrValStep a e) (some e2) acc (arrValStep_wf a e hwf) (by rw [hstep, hacc])

/-- When every element marshals, the element loop returns no error and
appends each element's encoding in order. -/
theorem anyGo_all_ok :
    ∀ (es : List GoVal) (acc : List Nat),
      (∀ e ∈ es, ∃ eb, anyMarshal e = .ok eb) →
      anyGo es none acc =
        (none, acc ++ (es.map fun e => (anyMarshal e).toOption.getD []).flatten) := by
  intro es
  induction es with
  | nil => intro acc _; simp [anyGo]
  | cons e rest ih =>
    intro acc h
    obtain ⟨eb, hok⟩ := h e (by simp)
    simp only [anyGo, hok]
    rw [ih (acc ++ eb) (fun x hx => h x (by simp [hx]))]
    simp [hok, Except.toOption]

theorem bwFlush_ok_buf (w w2 : BufioWriter) (h : bwFlush w = (w2, none)) : w2.buf = [] := by
  simp only [bwFlush] at h
  cases herr : w.err with
  | some e => rw [herr] at h; simp at h
  | none =>
    rw [herr] at h
    by_cases hbuf : w.buf = []
    · rw [if_pos hbuf] at h
      cases h; exact hbuf
    · rw [if_neg hbuf] at h
      cases hw : sinkWrite w.sink w.buf with
      | mk s2 r =>
        rw [hw] at h
        cases r with
        | none => cases h; rfl
        | some e => simp at h

/-! ### Claim theorems -/

/-- C1: for every wire-grammar kind (SimpleString, Error, Int, BulkString,
ArrayHeader), decoding the bytes produced by encoding a value yields that
value back, at the representative values: empty and non-empty simple
strings and errors, zero, a negative and a positive integer, the nil bulk
string (`B == nil`), the empty bulk string, a bulk string with embedded CRLF
bytes in its payload, and array headers `-1`, `5`, `0`. -/
theorem C1_roundtrip_representatives :
    simpleStringUnmarshal (simpleStringMarshal []) = .ok ([], [])
    ∧ simpleStringUnmarshal (simpleStringMarshal [102, 111, 111]) = .ok ([102, 111, 111], [])
    ∧ errorUnmarshal (errorMarshal []) = .ok ([], [])
    ∧ errorUnmarshal (errorMarshal [102, 111, 111]) = .ok ([102, 111, 111], [])
    ∧ intUnmarshal (intMarshal 0) = .ok (0, [])
    ∧ intUnmarshal (intMarshal (-5)) = .ok (-5, [])
    ∧ intUnmarshal (intMarshal 12345) = .ok (12345, [])
    ∧ bulkStringUnmarshal none (bulkStringMarshal none) = .ok (none, [])
    ∧ bulkStringUnmarshal none (bulkStringMarshal (some [])) = .ok (some [], [])
    ∧ bulkStringUnmarshal none (bulkStringMarshal (some [102, 111, 111, 13, 10, 98, 97, 114]))
        = .ok (some [102, 111, 111, 13, 10, 98, 97, 114], [])
    ∧ arrayHeaderUnmarshal (arrayHeaderMarshal (-1)) = .ok (-1, [])
    ∧ arrayHeaderUnmarshal (arrayHeaderMarshal 5) = .ok (5, [])
    ∧ arrayHeaderUnmarshal (arrayHeaderMarshal 0) = .ok (0, []) := by
  refine ⟨by decide, by decide, by decide, by decide, by decide, by decide, by decide,
    by decide, by decide, by decide, by decide, by decide, by decide⟩

/-- C2: marshalling `BulkString{B: nil}` returns exactly the precomputed
`$-1\r\n` constant without touching the pool; `BulkString{B: []byte{}}`
marshals to exactly `$0\r\n\r\n`; the two encodings are never equal; and
decoding a declared length of `-1` sets the destination to nil and reads
nothing past the header (whatever follows the five header bytes is left
unread), for every prior destination state. -/
theorem C2_bulk_nil_distinct :
    (∀ p : PoolSt, bulkStringMarshalSt none p = (nilBulkString, p))
    ∧ bulkStringMarshal none = [36, 45, 49, 13, 10]
    ∧ bulkStringMarshal (some []) = [36, 48, 13, 10, 13, 10]
    ∧ bulkStringMarshal none ≠ bulkStringMarshal (some [])
    ∧ (∀ (destB : BulkB) (rest : List Nat),
        bulkStringUnmarshal destB (nilBulkString ++ rest) = .ok (none, rest)) := by
  refine ⟨fun p => rfl, rfl, by decide, by decide, fun destB rest => ?_⟩
  show bulkStringUnmarshal destB (36 :: ([45, 49] ++ 13 :: 10 :: rest)) = .ok (none, rest)
  simp only [bulkStringUnmarshal, bulkStrPfx, bufferedPfx_cons, bufferedIntDelim,
    bufferedBytesDelim_ok [45, 49] 10 rest (by decide),
    show parseInt [45, 49] = Except.ok (-1) from by decide]
  simp

/-- C3 counterexample: the claim says the line-reading primitive fails
whenever the byte after the CR is not LF; but on `"ab\rX"` (CR followed by
`X` = 88) `bufferedBytesDelim` succeeds, returning the bytes before the CR,
and a whole `Int` decode of `":5\rX"` likewise succeeds. -/
theorem C3_cex :
    bufferedBytesDelim [97, 98, 13, 88] = .ok ([97, 98], [])
    ∧ intUnmarshal [58, 53, 13, 88] = .ok (5, []) := by decide

/-- C3 (amended): `bufferedBytesDelim` reads up to the first CR, consumes it
plus exactly one following byte — without checking that byte is LF — and
returns the bytes before the CR; it fails (with `io.EOF`) only when the
buffer contains no CR, or when nothing follows the first CR. -/
theorem C3_line_reading_amended :
    (∀ (u : List Nat) (c : Nat) (v : List Nat), (13 : Nat) ∉ u →
        bufferedBytesDelim (u ++ 13 :: c :: v) = .ok (u, v))
    ∧ (∀ u : List Nat, (13 : Nat) ∉ u → bufferedBytesDelim (u ++ [13]) = .error .eof)
    ∧ (∀ u : List Nat, (13 : Nat) ∉ u → bufferedBytesDelim u = .error .eof) :=
  ⟨bufferedBytesDelim_ok, bufferedBytesDelim_end, bufferedBytesDelim_noCR⟩

/-- C3 witness: the amended statement at the concrete line `"a\rXc"`. -/
theorem C3_line_reading_amended_witness :
    bufferedBytesDelim [97, 13, 88, 99] = .ok ([97], [99]) :=
  C3_line_reading_amended.1 [97] 88 [99] (by decide)

/-- C4 (code bug): `Any.MarshalRESP` on a pointer stores
`reflect.Indirect(vv)` — a `reflect.Value`, not the pointee — into the
nested `Any`, so marshalling `&n` does not produce the bytes of `n`: it
fails with the `unsupportedType "reflect.Value"` error for every pointer
(nil or not), while marshalling the pointee directly succeeds.  The
streaming encoder's `write`, by contrast, dereferences with
`vv.Elem().Interface()` and does encode `&n` like `n`. -/
theorem C4_pointer_marshal_fails :
    anyMarshal (.ptr (some (.intV 5))) = .error (.unsupportedType "reflect.Value")
    ∧ anyMarshal (.ptr none) = .error (.unsupportedType "reflect.Value")
    ∧ anyMarshal (.intV 5) = .ok [58, 53, 13, 10]
    ∧ anyMarshal (.ptr (some (.intV 5))) ≠ anyMarshal (.intV 5)
    ∧ enc2write (.ptr (some (.intV 5))) enc2Init = enc2write (.intV 5) enc2Init := by
  refine ⟨rfl, rfl, by decide, by decide, rfl⟩

/-- C5: the nested-encode buffer-reuse protocol of `Any.MarshalRESP`
preserves its two invariants — a sub-encode running in the tail view never
changes the accumulated bytes (first conjunct), and appending to the
accumulator (in place or through a grow that reallocates and copies)
extends the accumulated bytes exactly by the new ones, dropping and
duplicating nothing (second conjunct) — and consequently the arena run of
the slice case accumulates exactly the bytes the marshal returns (third
conjunct), which, when every element encodes, are the array header followed
by each element's encoding in order (fourth conjunct). -/
theorem C5_buffer_reuse :
    (∀ (a : Arena) (eb : List Nat), a.len ≤ a.arr.length →
        accBytes (tailWrite a eb) = accBytes a)
    ∧ (∀ (a : Arena) (b : List Nat), a.len ≤ a.arr.length →
        accBytes (ogBufWrite a b) = accBytes a ++ b)
    ∧ (∀ (es : List GoVal) (arr out : List Nat),
        anyMarshal (.slice (some es)) = .ok out →
        accBytes (sliceMarshalArena es ⟨arr, 0⟩) = out)
    ∧ (∀ es : List GoVal,
        (∀ e ∈ es, ∃ eb, anyMarshal e = .ok eb) →
        anyMarshal (.slice (some es)) =
          .ok (arrayHeaderMarshal (es.length : Int) ++
            (es.map fun e => (anyMarshal e).toOption.getD []).flatten)) := by
  refine ⟨tailWrite_acc, ogBufWrite_acc, ?_, ?_⟩
  · intro es arr out hok
    simp only [anyMarshal] at hok
    cases hgo : anyGo es none (arrayHeaderMarshal (es.length : Int)) with
    | mk er acc =>
      rw [hgo] at hok
      cases er with
      | some e => simp at hok
      | none =>
        simp only [Except.ok.injEq] at hok
        subst hok
        simp only [sliceMarshalArena]
        have h0 : (⟨arr, 0⟩ : Arena).len ≤ (⟨arr, 0⟩ : Arena).arr.length := Nat.zero_le _
        have hacc1 : accBytes (ogBufWrite (tailWrite ⟨arr, 0⟩
            (arrayHeaderMarshal (es.length : Int))) (arrayHeaderMarshal (es.length : Int))) =
            arrayHeaderMarshal (es.length : Int) := by
          rw [ogBufWrite_acc _ _ (tailWrite_wf _ _ h0), tailWrite_acc _ _ h0]
          simp [accBytes]
        have hwf1 := ogBufWrite_wf (tailWrite ⟨arr, 0⟩ (arrayHeaderMarshal (es.length : Int)))
          (arrayHeaderMarshal (es.length : Int)) (tailWrite_wf _ _ h0)
        rw [foldl_arrValStep_acc es _ none (arrayHeaderMarshal (es.length : Int)) hwf1 hacc1,
          hgo]
  · intro es h
    simp only [anyMarshal]
    rw [anyGo_all_ok es _ h]

/-- C5 witness: the arena run over `["a", "b"]`, started on a backing array
of capacity 3 (so both the header append and the element appends exercise
the grow path), accumulates exactly `*2\r\n$1\r\na\r\n$1\r\nb\r\n`. -/
theorem C5_buffer_reuse_witness :
    accBytes (sliceMarshalArena [GoVal.str [97], GoVal.str [98]] ⟨[7, 7, 7], 0⟩) =
      [42, 50, 13, 10, 36, 49, 13, 10, 97, 13, 10, 36, 49, 13, 10, 98, 13, 10] :=
  C5_buffer_reuse.2.2.1 [GoVal.str [97], GoVal.str [98]] [7, 7, 7] _ (by decide)

/-- C6: the generic marshaler encodes an empty (non-nil) string slice as
`*0\r\n`, the slice `["a","b"]` as `*2\r\n$1\r\na\r\n$1\r\nb\r\n`, the
untyped nil value as the nil bulk string `$-1\r\n`, and a nil slice as the
nil array `*-1\r\n`. -/
theorem C6_generic_marshal_examples :
    anyMarshal (.slice (some [])) = .ok [42, 48, 13, 10]
    ∧ anyMarshal (.slice (some [.str [97], .str [98]])) =
        .ok [42, 50, 13, 10, 36, 49, 13, 10, 97, 13, 10, 36, 49, 13, 10, 98, 13, 10]
    ∧ anyMarshal .nilV = .ok [36, 45, 49, 13, 10]
    ∧ anyMarshal (.slice none) = .ok [42, 45, 49, 13, 10] := by
  refine ⟨by decide, by decide, by decide, by decide⟩

/-- C7: decoding the truncated input `"$3\r\nfo"` as a BulkString fails with
the length-mismatch error (3 bytes declared, 2 available), which is neither
a success nor a modelled Go panic; `Next` clamps to the buffered bytes, so
nothing past the input is read. -/
theorem C7_truncated_decode_fails :
    bulkStringUnmarshal none [36, 51, 13, 10, 102, 111] = .error (.bulkLenMismatch 3 2)
    ∧ (∀ v : BulkB × List Nat,
        bulkStringUnmarshal none [36, 51, 13, 10, 102, 111] ≠ .ok v)
    ∧ (∀ msg : String,
        bulkStringUnmarshal none [36, 51, 13, 10, 102, 111] ≠ .error (.panicErr msg)) := by
  refine ⟨by decide, ?_, ?_⟩
  · intro v h
    rw [show bulkStringUnmarshal none [36, 51, 13, 10, 102, 111] =
        .error (.bulkLenMismatch 3 2) from by decide] at h
    exact Except.noConfusion h
  · intro msg h
    rw [show bulkStringUnmarshal none [36, 51, 13, 10, 102, 111] =
        .error (.bulkLenMismatch 3 2) from by decide] at h
    simp at h

/-- C8: decoding input whose first byte is not the expected `$` prefix as a
BulkString fails immediately with the prefix-mismatch error carrying both
the expected and the actual byte; `bufferedPrefix` consumes exactly the
prefix length from the buffer; in particular `":5\r\n"` decodes to the
prefix-mismatch error, not a success. -/
theorem C8_prefix_mismatch :
    (∀ (destB : BulkB) (c : Nat) (t : List Nat), c ≠ 36 →
        bulkStringUnmarshal destB (c :: t) = .error (.pfxMismatch [36] [c]))
    ∧ (∀ pfx b : List Nat, (bufferedPfx pfx b).2 = b.drop pfx.length)
    ∧ bulkStringUnmarshal none [58, 53, 13, 10] = .error (.pfxMismatch [36] [58]) := by
  refine ⟨?_, fun pfx b => rfl, by decide⟩
  intro destB c t hc
  simp [bulkStringUnmarshal, bufferedPfx, bulkStrPfx, hc]

/-- C8 witness: the general prefix-mismatch statement at `":5\r\n"`. -/
theorem C8_prefix_mismatch_witness :
    bulkStringUnmarshal none [58, 53, 13, 10] = .error (.pfxMismatch [36] [58]) :=
  C8_prefix_mismatch.1 none 58 [53, 13, 10] (by decide)

/-- C9: `encoder2.Encode` always flushes the buffered writer after `write`
returns (first conjunct: the final state is the post-write state with its
writer flushed), a write error takes precedence over a flush error (second
conjunct), a flush error alone is returned when `write` succeeded (third
conjunct), and a successful flush leaves the bufio buffer empty, its bytes
handed to the sink (fourth conjunct). -/
theorem C9_encode_flush (v : GoVal) (st st1 : Enc2State) (werr : Option RespErr)
    (h : enc2write v st = .ret st1 werr) :
    encode2 v st =
      .ret { st1 with w := (bwFlush st1.w).1 }
        (match werr with
         | some e => some e
         | none => (bwFlush st1.w).2)
    ∧ (∀ e, werr = some e →
        encode2 v st = .ret { st1 with w := (bwFlush st1.w).1 } (some e))
    ∧ (werr = none →
        encode2 v st = .ret { st1 with w := (bwFlush st1.w).1 } (bwFlush st1.w).2)
    ∧ (werr = none → (bwFlush st1.w).2 = none → ((bwFlush st1.w).1).buf = []) := by
  have hmain : encode2 v st =
      .ret { st1 with w := (bwFlush st1.w).1 }
        (match werr with
         | some e => some e
         | none => (bwFlush st1.w).2) := by
    simp only [encode2, h]
    cases werr <;> rfl
  refine ⟨hmain, ?_, ?_, ?_⟩
  · intro e he; subst he; exact hmain
  · intro he; subst he; exact hmain
  · intro _ hf
    apply bwFlush_ok_buf st1.w
    rw [← hf]

/-- C9 witness: encoding the byte slice `"x"` on a fresh encoder over a
never-failing sink ends with the flush performed — the bulk-string bytes
`$1\r\nx\r\n` sit in the sink, the bufio buffer is empty — and no error. -/
theorem C9_encode_flush_witness :
    encode2 (.bytes [120]) enc2Init =
      .ret { w := { sink := { written := [36, 49, 13, 10, 120, 13, 10], failAfter := none },
                    buf := [], err := none }, bodyBuf := [] } none := by
  have h := (C9_encode_flush (.bytes [120]) enc2Init
      { w := { sink := { written := [], failAfter := none },
               buf := [36, 49, 13, 10, 120, 13, 10], err := none }, bodyBuf := [] }
      none (by decide)).1
  exact h.trans (by decide)

/-- C10: when the destination `BulkString.B` is non-nil and non-empty (any
`d ≠ []`), decoding a well-formed non-nil bulk string of payload length `n`
appends the `n` payload bytes after the existing `d.length` bytes
(`append(b.B[0:], …)`) and therefore fails with the length-mismatch error
reporting `d.length + n` bytes where `n` were expected; with a nil or
length-zero destination the same input decodes successfully in place. -/
theorem C10_nonempty_dest_append (d payload rest : List Nat) (hd : d ≠ [])
    (hlen : payload.length < 2 ^ 63) :
    bulkStringUnmarshal (some d) (bulkStringMarshal (some payload) ++ rest) =
      .error (.bulkLenMismatch (payload.length : Int) (d.length + payload.length))
    ∧ bulkStringUnmarshal (some []) (bulkStringMarshal (some payload) ++ rest) =
      .ok (some payload, rest)
    ∧ bulkStringUnmarshal none (bulkStringMarshal (some payload) ++ rest) =
      .ok (some payload, rest) := by
  have h1 := bulkStringUnmarshal_marshal (some d) payload rest hlen
  have h2 := bulkStringUnmarshal_marshal (some []) payload rest hlen
  have h3 := bulkStringUnmarshal_marshal none payload rest hlen
  refine ⟨?_, ?_, ?_⟩
  · rw [h1]
    simp only []
    rw [if_neg (fun h => hd (List.length_eq_zero.mp h))]
  · rw [h2]
    simp
  · exact h3

/-- C10 witness: decoding `$3\r\nfoo\r\n` into a destination whose `B`
already holds one byte fails reporting 4 bytes where 3 were expected, while
the empty and nil destinations decode it successfully. -/
theorem C10_nonempty_dest_append_witness :
    bulkStringUnmarshal (some [7]) (bulkStringMarshal (some [102, 111, 111]) ++ []) =
      .error (.bulkLenMismatch 3 4)
    ∧ bulkStringUnmarshal (some []) (bulkStringMarshal (some [102, 111, 111]) ++ []) =
      .ok (some [102, 111, 111], [])
    ∧ bulkStringUnmarshal none (bulkStringMarshal (some [102, 111, 111]) ++ []) =
      .ok (some [102, 111, 111], []) :=
  C10_nonempty_dest_append [7] [102, 111, 111] [] (by decide) (by decide)
